import Mathlib

/-!
Verification of the `iodatafmt` Go package (format resolution, codec
dispatch, and the map-to-array normalization pass) against its
specification.  The Go functions are embedded shallowly: Go's
`interface{}` trees become the `Value` inductive, Go maps become
association lists with string keys, fallible functions return `Except`,
and the external per-format codec libraries are abstracted as a record
of decode/encode functions.
-/

set_option autoImplicit false

namespace Iodatafmt

/-- Raw serialized bytes (Go `[]byte`). -/
abbrev Bytes := List Nat

/-- `DataFmt` represents which data serialization is used: YAML, JSON or
TOML, plus the `UNKNOWN` sentinel from the Go enumeration. -/
inductive DataFmt where
  | YAML
  | TOML
  | JSON
  | UNKNOWN
deriving DecidableEq

/-- The generic decoded tree (Go `interface{}` as produced by the
decoders): scalars, arrays (`[]interface{}`) and string-keyed maps
(`map[string]interface{}`, embedded as an association list). -/
inductive Value where
  | vnull : Value
  | vbool : Bool → Value
  | vnum : Int → Value
  | vstr : String → Value
  | arr : List Value → Value
  | map : List (String × Value) → Value

/-- Lexicographic `≤` on character lists, comparing code points; on
UTF-8 data this coincides with Go's byte-wise string comparison. -/
def chListLe : List Char → List Char → Bool
  | [], _ => true
  | _ :: _, [] => false
  | c :: cs, d :: ds =>
    if c.toNat < d.toNat then true
    else if d.toNat < c.toNat then false
    else chListLe cs ds

/-- Go's `<=` on strings (byte-wise lexicographic comparison). -/
def strLe (a b : String) : Bool := chListLe a.data b.data

/-- Embeds Go's `sort.Strings` (ascending lexicographic sort). -/
def sortStrings (l : List String) : List String :=
  l.insertionSort (fun a b => strLe a b = true)

/-- Go map indexing `m[key]` (zero value `nil` when the key is absent,
which never happens on the keys `willRestore` returns). -/
def lookupV (m : List (String × Value)) (k : String) : Value :=
  match m.find? (fun p => p.1 == k) with
  | some p => p.2
  | none => Value.vnull

/-- The index loop of `willRestore` (`for i := range keys`), carrying
the running index: every key must equal `strconv.Itoa(i)` at its
position. -/
def keysAreIota : List String → Nat → Bool
  | [], _ => true
  | k :: ks, i => k == toString i && keysAreIota ks (i + 1)

/-- Embeds `willRestore`: a non-empty map is restorable iff its keys,
sorted lexically by `sort.Strings`, satisfy `keys[i] == strconv.Itoa(i)`
at every position.  Returns the sorted keys on success. -/
def willRestore (m : List (String × Value)) : Option (List String) :=
  if m.length = 0 then none
  else
    let keys := sortStrings (m.map Prod.fst)
    if keysAreIota keys 0 then some keys else none

mutual

/-- Embeds `restoreArrayMapValue`: dispatch on the dynamic type of the
node, recursing into arrays and maps and returning scalars unchanged.
The body of `restoreArrayInterfaceMap` is inlined into the `map` case
(it is recovered verbatim as a named definition just below): normalize
the values, then if `willRestore` accepts the result, emit the array of
values in the order of the returned (sorted) keys, else keep the map. -/
def restoreArrayMapValue : Value → Value
  | Value.arr xs => Value.arr (restoreArrayInterfaceArray xs)
  | Value.map kvs =>
      let res := restoreEntries kvs
      match willRestore res with
      | some keys => Value.arr (keys.map (fun k => lookupV res k))
      | none => Value.map res
  | v => v
termination_by structural v => v

/-- Embeds `restoreArrayInterfaceArray`: normalize each element. -/
def restoreArrayInterfaceArray : List Value → List Value
  | [] => []
  | x :: xs => restoreArrayMapValue x :: restoreArrayInterfaceArray xs
termination_by structural xs => xs

/-- The map-rebuilding loop of `restoreArrayInterfaceMap`: each value is
normalized (keys, already strings, are kept by `fmt.Sprintf("%v", k)`). -/
def restoreEntries : List (String × Value) → List (String × Value)
  | [] => []
  | (k, v) :: kvs => (k, restoreArrayMapValue v) :: restoreEntries kvs
termination_by structural kvs => kvs

end

/-- Embeds `restoreArrayInterfaceMap` as a standalone function (its body
is the `map` case of `restoreArrayMapValue` above). -/
def restoreArrayInterfaceMap (kvs : List (String × Value)) : Value :=
  let res := restoreEntries kvs
  match willRestore res with
  | some keys => Value.arr (keys.map (fun k => lookupV res k))
  | none => Value.map res

/-- Embeds one step of Go's `strings.ToUpper`, which maps each rune
through `unicode.ToUpper` (the Unicode simple uppercase mapping): ASCII
letters are uppercased, and the only two Unicode scalars whose simple
uppercase mapping lands inside ASCII — dotless ı (U+0131) → `'I'` and
long s ſ (U+017F) → `'S'` — are mapped as well.  Every other simple
case mapping sends a non-ASCII character to a non-ASCII character, so
this model agrees with `unicode.ToUpper` on whether (and to which) an
ASCII character is produced, which is all that comparison against the
ASCII names `"YAML"`/`"TOML"`/`"JSON"` can observe. -/
def toUpperChar (c : Char) : Char :=
  if 97 ≤ c.toNat ∧ c.toNat ≤ 122 then Char.ofNat (c.toNat - 32)
  else if c.toNat = 0x131 then 'I'
  else if c.toNat = 0x17F then 'S'
  else c

/-- Embeds Go's `strings.ToUpper` (per-character uppercasing). -/
def goToUpper (s : String) : String := ⟨s.data.map toUpperChar⟩

/-- Embeds `Format`: case-insensitive name-based format resolution. -/
def Format (s : String) : Except String DataFmt :=
  match goToUpper s with
  | "YAML" => Except.ok DataFmt.YAML
  | "TOML" => Except.ok DataFmt.TOML
  | "JSON" => Except.ok DataFmt.JSON
  | _ => Except.error "unsupported data format"

/-- The backward scan of Go's `filepath.Ext` over the reversed character
list: stop with `""` at a path separator or at the start, and return the
suffix (dot included) at the first dot found. -/
def extRev : List Char → List Char → String
  | [], _ => ""
  | c :: rest, acc =>
    if c = '/' then ""
    else if c = '.' then ⟨'.' :: acc⟩
    else extRev rest (c :: acc)

/-- Embeds Go's `filepath.Ext`: the suffix beginning at the final dot in
the final slash-separated element of the path, or `""` if there is none. -/
def filepathExt (p : String) : String := extRev p.data.reverse []

/-- Embeds `FileFormat`: extension-based format resolution (exact,
case-sensitive match on `filepath.Ext`). -/
def FileFormat (fn : String) : Except String DataFmt :=
  match filepathExt fn with
  | ".yaml" => Except.ok DataFmt.YAML
  | ".yml" => Except.ok DataFmt.YAML
  | ".json" => Except.ok DataFmt.JSON
  | ".toml" => Except.ok DataFmt.TOML
  | ".tml" => Except.ok DataFmt.TOML
  | _ => Except.error "unsupported data format"

/-- The external per-format codec libraries (`yaml_mapstr`, BurntSushi
`toml`, `encoding/json`), abstracted at their interface boundary.
`jsonMarshalIndent v pre ind` stands for `json.MarshalIndent(&v, pre,
ind)`; the other fields stand for the respective `Unmarshal`/`Marshal`/
`Encode` entry points. -/
structure Codecs where
  yamlUnmarshal : Bytes → Except String Value
  tomlUnmarshal : Bytes → Except String Value
  jsonUnmarshal : Bytes → Except String Value
  yamlMarshal : Value → Except String Bytes
  tomlEncode : Value → Except String Bytes
  jsonMarshalIndent : Value → String → String → Except String Bytes

/-- Embeds `Unmarshal`: dispatch the raw bytes to the format's decoder;
the decoded tree is returned as-is. -/
def Unmarshal (C : Codecs) (b : Bytes) (f : DataFmt) : Except String Value :=
  match f with
  | DataFmt.YAML => C.yamlUnmarshal b
  | DataFmt.TOML => C.tomlUnmarshal b
  | DataFmt.JSON => C.jsonUnmarshal b
  | DataFmt.UNKNOWN => Except.error "unsupported data format"

/-- Embeds `Marshal`: normalize the tree with `restoreArrayMapValue`,
then dispatch to the format's encoder (JSON uses `MarshalIndent` with
empty prefix and two-space indent). -/
def Marshal (C : Codecs) (d : Value) (f : DataFmt) : Except String Bytes :=
  let res := restoreArrayMapValue d
  match f with
  | DataFmt.YAML => C.yamlMarshal res
  | DataFmt.TOML => C.tomlEncode res
  | DataFmt.JSON => C.jsonMarshalIndent res "" "  "
  | DataFmt.UNKNOWN => Except.error "unsupported data format"

/-- The spec's `Codec.decode`: the raw per-format decoding step, with no
normalization (used to state the claims about the facade). -/
def codecDecode (C : Codecs) (b : Bytes) (f : DataFmt) : Except String Value :=
  match f with
  | DataFmt.YAML => C.yamlUnmarshal b
  | DataFmt.TOML => C.tomlUnmarshal b
  | DataFmt.JSON => C.jsonUnmarshal b
  | DataFmt.UNKNOWN => Except.error "unsupported data format"

/-- The spec's `Codec.encode`: the raw per-format encoding step, with no
normalization (used to state the claims about the facade). -/
def codecEncode (C : Codecs) (v : Value) (f : DataFmt) : Except String Bytes :=
  match f with
  | DataFmt.YAML => C.yamlMarshal v
  | DataFmt.TOML => C.tomlEncode v
  | DataFmt.JSON => C.jsonMarshalIndent v "" "  "
  | DataFmt.UNKNOWN => Except.error "unsupported data format"

/-- Outcome of reading one path, abstracting `os.Stat`/`os.IsNotExist`
followed by `ioutil.ReadFile`: the path is absent, the read fails with
some other error, or the full contents are returned. -/
inductive FsRead where
  | absent : FsRead
  | readErr : String → FsRead
  | content : Bytes → FsRead

/-- Embeds `Load`: fail when the path does not exist, propagate any
other read error, else `Unmarshal` the file's full contents. -/
def Load (fs : String → FsRead) (C : Codecs) (fn : String) (f : DataFmt) :
    Except String Value :=
  match fs fn with
  | FsRead.absent => Except.error "file doesn't exist"
  | FsRead.readErr e => Except.error e
  | FsRead.content b => Unmarshal C b f

/-- Embeds `Write` over an explicit filesystem state (path to optional
contents): `Marshal` first and return its error untouched, and only on
success create/truncate the target file with the marshalled bytes.
Returns the outcome together with the resulting filesystem. -/
def Write (fs : String → Option Bytes) (C : Codecs) (fn : String)
    (d : List (String × Value)) (f : DataFmt) :
    Except String Unit × (String → Option Bytes) :=
  match Marshal C (Value.map d) f with
  | Except.error e => (Except.error e, fs)
  | Except.ok b => (Except.ok (), fun p => if p = fn then some b else fs p)

/-- The spec's "index-shaped" predicate, stated from the spec's words:
the key set of the mapping is exactly the canonical decimal strings
`"0".."n-1"` for its size `n > 0` (no duplicates, no gaps). -/
def indexShapedSpec (kvs : List (String × Value)) : Prop :=
  kvs.length ≠ 0 ∧
    (kvs.map Prod.fst).Perm ((List.range kvs.length).map (fun i => toString i))

instance (kvs : List (String × Value)) : Decidable (indexShapedSpec kvs) :=
  instDecidableAnd

/-- One character of a case variant: `c` is the target character `d`
itself, or `d` is an ASCII uppercase letter and `c` its lowercase. -/
def charCaseVariant (c d : Char) : Bool :=
  c == d || (decide (65 ≤ d.toNat) && decide (d.toNat ≤ 90) && c.toNat == d.toNat + 32)

/-- Character lists of equal length that agree up to ASCII case. -/
def caseVariantChars : List Char → List Char → Bool
  | [], [] => true
  | c :: cs, d :: ds => charCaseVariant c d && caseVariantChars cs ds
  | _, _ => false

/-- The claim's "case variant": `s` spells the (uppercase) name `t` with
each letter's case chosen freely. -/
def caseVariantOf (s t : String) : Bool := caseVariantChars s.data t.data

/-- One character of a Unicode case variant: `c` is the target `d`, its
ASCII lowercase, or one of the two non-ASCII letters whose Unicode
simple uppercase mapping is an ASCII letter (ı for `'I'`, ſ for `'S'`). -/
def charCaseVariantU (c d : Char) : Bool :=
  charCaseVariant c d
    || (d == 'I' && c.toNat == 0x131)
    || (d == 'S' && c.toNat == 0x17F)

/-- Character lists of equal length that agree up to Unicode case. -/
def caseVariantCharsU : List Char → List Char → Bool
  | [], [] => true
  | c :: cs, d :: ds => charCaseVariantU c d && caseVariantCharsU cs ds
  | _, _ => false

/-- The amended claim's "Unicode case variant": `s` spells the
(uppercase) name `t` with each letter either in free ASCII case or as
the non-ASCII letter that uppercases to it (ı → I, ſ → S). -/
def unicodeCaseVariantOf (s t : String) : Bool :=
  caseVariantCharsU s.data t.data

/-- A concrete codec instance used to exercise the facade: its JSON
decoder returns `{"0": null}` (exactly what `encoding/json` produces for
the input bytes `{"0":null}`), and the remaining entry points fail. -/
def demoCodecs : Codecs :=
  ⟨fun _ => Except.error "yaml decode error",
   fun _ => Except.error "toml decode error",
   fun _ => Except.ok (Value.map [("0", Value.vnull)]),
   fun _ => Except.error "yaml encode error",
   fun _ => Except.error "toml encode error",
   fun _ _ _ => Except.error "json encode error"⟩

/-- An eleven-entry mapping whose key set is exactly `"0".."10"` (the
decoded form of, e.g., the JSON object `{"0":null, ..., "10":null}`). -/
def elevenKeyMap : List (String × Value) :=
  [("0", Value.vnull), ("1", Value.vnull), ("2", Value.vnull), ("3", Value.vnull),
   ("4", Value.vnull), ("5", Value.vnull), ("6", Value.vnull), ("7", Value.vnull),
   ("8", Value.vnull), ("9", Value.vnull), ("10", Value.vnull)]

/-! ### Helper lemmas about the normalization pass -/

theorem restoreEntries_eq_map (kvs : List (String × Value)) :
    restoreEntries kvs = kvs.map (fun p => (p.1, restoreArrayMapValue p.2)) := by
  induction kvs with
  | nil => rfl
  | cons p kvs ih => cases p; simp [restoreEntries, ih]

theorem restoreArr_eq_map (xs : List Value) :
    restoreArrayInterfaceArray xs = xs.map restoreArrayMapValue := by
  induction xs with
  | nil => rfl
  | cons x xs ih => simp [restoreArrayInterfaceArray, ih]

theorem restoreEntries_keys (kvs : List (String × Value)) :
    (restoreEntries kvs).map Prod.fst = kvs.map Prod.fst := by
  rw [restoreEntries_eq_map, List.map_map]
  rfl

/-- The unfolding of `restoreArrayMapValue` at a map node. -/
theorem restore_map_eq (kvs : List (String × Value)) :
    restoreArrayMapValue (Value.map kvs) =
      match willRestore (restoreEntries kvs) with
      | some keys => Value.arr (keys.map (fun k => lookupV (restoreEntries kvs) k))
      | none => Value.map (restoreEntries kvs) := rfl

/-- `willRestore` looks only at the keys of its argument. -/
theorem willRestore_congr {m m' : List (String × Value)}
    (h : m.map Prod.fst = m'.map Prod.fst) : willRestore m = willRestore m' := by
  have hlen : m.length = m'.length := by
    have := congrArg List.length h
    simpa using this
  simp only [willRestore, h, hlen]

/-- A successful run of the `willRestore` index loop pins the list down
to the consecutive decimal strings starting at the loop's start index. -/
theorem keysAreIota_eq_range' (l : List String) (i : Nat)
    (h : keysAreIota l i = true) :
    l = (List.range' i l.length).map (fun j => toString j) := by
  induction l generalizing i with
  | nil => rfl
  | cons k ks ih =>
    simp only [keysAreIota, Bool.and_eq_true, beq_iff_eq] at h
    obtain ⟨hk, hrest⟩ := h
    rw [List.length_cons, List.range'_succ, List.map_cons, ← ih (i + 1) hrest]
    simp [hk]

/-- A map accepted by `willRestore` is index-shaped in the spec's sense. -/
theorem indexShapedSpec_of_willRestore {m : List (String × Value)}
    {keys : List String} (h : willRestore m = some keys) : indexShapedSpec m := by
  unfold willRestore at h
  by_cases hlen : m.length = 0
  · rw [if_pos hlen] at h; cases h
  · rw [if_neg hlen] at h
    by_cases hchk : keysAreIota (sortStrings (m.map Prod.fst)) 0 = true
    · have hperm : (sortStrings (m.map Prod.fst)).Perm (m.map Prod.fst) :=
        List.perm_insertionSort _ _
      have hkeys := keysAreIota_eq_range' _ _ hchk
      have hlen2 : (sortStrings (m.map Prod.fst)).length = m.length := by
        rw [hperm.length_eq, List.length_map]
      have hp2 := hperm.symm
      rw [hkeys, hlen2, ← List.range_eq_range'] at hp2
      exact ⟨hlen, hp2⟩
    · rw [if_neg hchk] at h; cases h

/-- A Go map lookup on the keys of the map returns `nil` or a value of
the map. -/
theorem lookupV_mem_or_null (m : List (String × Value)) (k : String) :
    lookupV m k = Value.vnull ∨ lookupV m k ∈ m.map Prod.snd := by
  unfold lookupV
  cases h : m.find? (fun p => p.1 == k) with
  | none => exact Or.inl rfl
  | some p => exact Or.inr (List.mem_map_of_mem _ (List.mem_of_find?_eq_some h))

/-- Structural induction for `Value` with list-membership hypotheses at
array and map nodes. -/
theorem Value.inductionOn (P : Value → Prop)
    (hnull : P Value.vnull)
    (hbool : ∀ b, P (Value.vbool b))
    (hnum : ∀ n, P (Value.vnum n))
    (hstr : ∀ s, P (Value.vstr s))
    (harr : ∀ xs, (∀ x ∈ xs, P x) → P (Value.arr xs))
    (hmap : ∀ kvs, (∀ p ∈ kvs, P p.2) → P (Value.map kvs)) :
    ∀ v, P v := fun v =>
  match v with
  | Value.vnull => hnull
  | Value.vbool b => hbool b
  | Value.vnum n => hnum n
  | Value.vstr s => hstr s
  | Value.arr xs =>
      harr xs (fun x hx => Value.inductionOn P hnull hbool hnum hstr harr hmap x)
  | Value.map kvs =>
      hmap kvs (fun p hp => Value.inductionOn P hnull hbool hnum hstr harr hmap p.2)
termination_by v => sizeOf v
decreasing_by
  · have := List.sizeOf_lt_of_mem hx
    simp only [Value.arr.sizeOf_spec]
    omega
  · have h1 := List.sizeOf_lt_of_mem hp
    rcases p with ⟨k, x⟩
    simp only [Prod.mk.sizeOf_spec] at h1
    simp only [Value.map.sizeOf_spec]
    omega

/-- Normalizing a list whose members are already fixed points changes
nothing. -/
theorem restoreArr_eq_self (xs : List Value)
    (h : ∀ x ∈ xs, restoreArrayMapValue x = x) :
    restoreArrayInterfaceArray xs = xs := by
  rw [restoreArr_eq_map]
  exact List.map_congr_left h |>.trans (List.map_id xs)

/-- The unfolding of `restoreArrayMapValue` at an array node. -/
theorem restore_arr_eq (xs : List Value) :
    restoreArrayMapValue (Value.arr xs) =
      Value.arr (restoreArrayInterfaceArray xs) := rfl

/-- Normalization is idempotent (helper carrying the induction). -/
theorem restore_restore (v : Value) :
    restoreArrayMapValue (restoreArrayMapValue v) = restoreArrayMapValue v := by
  induction v using Value.inductionOn with
  | hnull => rfl
  | hbool b => rfl
  | hnum n => rfl
  | hstr s => rfl
  | harr xs ih =>
    simp only [restore_arr_eq, restoreArr_eq_map, List.map_map]
    exact congrArg Value.arr (List.map_congr_left ih)
  | hmap kvs ih =>
    have hres : restoreEntries (restoreEntries kvs) = restoreEntries kvs := by
      rw [restoreEntries_eq_map, restoreEntries_eq_map, List.map_map]
      refine List.map_congr_left (fun p hp => ?_)
      simp only [Function.comp_apply]
      exact congrArg (fun x => (p.1, x)) (ih p hp)
    have hvals : ∀ x ∈ (restoreEntries kvs).map Prod.snd,
        restoreArrayMapValue x = x := by
      intro x hx
      rw [restoreEntries_eq_map, List.map_map] at hx
      obtain ⟨p, hp, rfl⟩ := List.mem_map.mp hx
      simpa using ih p hp
    rw [restore_map_eq kvs]
    cases hw : willRestore (restoreEntries kvs) with
    | some keys =>
      rw [restore_arr_eq]
      refine congrArg Value.arr (restoreArr_eq_self _ ?_)
      intro x hx
      obtain ⟨k, hk, rfl⟩ := List.mem_map.mp hx
      rcases lookupV_mem_or_null (restoreEntries kvs) k with hnull | hmem
      · rw [hnull]; rfl
      · exact hvals _ hmem
    | none =>
      rw [restore_map_eq (restoreEntries kvs), hres, hw]

/-- A mapping that is not index-shaped in the spec's sense is kept as a
mapping, keys untouched and values normalized. -/
theorem restore_nonindex_map (kvs : List (String × Value))
    (h : ¬ indexShapedSpec kvs) :
    restoreArrayMapValue (Value.map kvs) =
      Value.map (kvs.map (fun p => (p.1, restoreArrayMapValue p.2))) := by
  rw [restore_map_eq]
  cases hw : willRestore (restoreEntries kvs) with
  | some keys =>
    exfalso
    apply h
    have hspec := indexShapedSpec_of_willRestore hw
    have hl : (restoreEntries kvs).length = kvs.length := by
      rw [restoreEntries_eq_map, List.length_map]
    unfold indexShapedSpec at hspec ⊢
    rwa [restoreEntries_keys, hl] at hspec
  | none =>
    rw [restoreEntries_eq_map]

/-! ### Helper lemmas about ASCII case folding -/

theorem toNat_ofNat_valid {n : Nat} (h : n < 0xd800) : (Char.ofNat n).toNat = n := by
  unfold Char.ofNat
  rw [dif_pos (Or.inl h)]
  rfl

/-- For an uppercase ASCII target `d`, `toUpperChar` sends `c` to `d`
exactly when `c` is `d` itself, its ASCII lowercase counterpart, or the
non-ASCII letter (ı or ſ) whose Unicode uppercase is `d`. -/
theorem toUpperChar_eq_iff {d : Char} (h65 : 65 ≤ d.toNat) (h90 : d.toNat ≤ 90)
    (c : Char) : toUpperChar c = d ↔ charCaseVariantU c d = true := by
  unfold toUpperChar charCaseVariantU charCaseVariant
  simp only [Bool.or_eq_true, Bool.and_eq_true, beq_iff_eq, decide_eq_true_eq]
  by_cases hc : 97 ≤ c.toNat ∧ c.toNat ≤ 122
  · rw [if_pos hc]
    constructor
    · intro h
      have hv : c.toNat - 32 < 0xd800 := by omega
      have h2 := congrArg Char.toNat h
      rw [toNat_ofNat_valid hv] at h2
      exact Or.inl (Or.inl (Or.inr ⟨⟨h65, h90⟩, by omega⟩))
    · intro h
      rcases h with ((h | ⟨⟨-, -⟩, h⟩) | ⟨-, hcI⟩) | ⟨-, hcS⟩
      · exfalso; rw [h] at hc; omega
      · have h2 : c.toNat - 32 = d.toNat := by omega
        rw [h2, Char.ofNat_toNat]
      · exfalso; omega
      · exfalso; omega
  · rw [if_neg hc]
    by_cases hI : c.toNat = 0x131
    · rw [if_pos hI]
      constructor
      · intro h
        exact Or.inl (Or.inr ⟨h.symm, hI⟩)
      · intro h
        rcases h with ((h | ⟨⟨-, -⟩, h⟩) | ⟨hd, -⟩) | ⟨hd, hcS⟩
        · exfalso
          have := congrArg Char.toNat h
          omega
        · exfalso; omega
        · exact hd.symm
        · exfalso; omega
    · rw [if_neg hI]
      by_cases hS : c.toNat = 0x17F
      · rw [if_pos hS]
        constructor
        · intro h
          exact Or.inr ⟨h.symm, hS⟩
        · intro h
          rcases h with ((h | ⟨⟨-, -⟩, h⟩) | ⟨hd, hcI⟩) | ⟨hd, -⟩
          · exfalso
            have := congrArg Char.toNat h
            omega
          · exfalso; omega
          · exfalso; omega
          · exact hd.symm
      · rw [if_neg hS]
        constructor
        · intro h
          exact Or.inl (Or.inl (Or.inl h))
        · intro h
          rcases h with ((h | ⟨⟨-, -⟩, h⟩) | ⟨-, hcI⟩) | ⟨-, hcS⟩
          · exact h
          · exact absurd ⟨by omega, by omega⟩ hc
          · exact absurd hcI hI
          · exact absurd hcS hS

/-- Lifts `toUpperChar_eq_iff` over lists of characters. -/
theorem map_toUpper_eq_iff : ∀ (cs ds : List Char),
    (∀ d ∈ ds, 65 ≤ d.toNat ∧ d.toNat ≤ 90) →
    (cs.map toUpperChar = ds ↔ caseVariantCharsU cs ds = true)
  | [], [] => by simp [caseVariantCharsU]
  | [], _ :: _ => by simp [caseVariantCharsU]
  | _ :: _, [] => by simp [caseVariantCharsU]
  | c :: cs, d :: ds => by
    intro hd
    have hd1 := hd d (List.mem_cons_self d ds)
    have ih := map_toUpper_eq_iff cs ds (fun x hx => hd x (List.mem_cons_of_mem _ hx))
    simp only [List.map_cons, List.cons.injEq, caseVariantCharsU, Bool.and_eq_true]
    rw [toUpperChar_eq_iff hd1.1 hd1.2, ih]

/-- `goToUpper s` hits an all-uppercase target `t` exactly when `s` is a
Unicode case variant of `t`. -/
theorem goToUpper_eq_iff {t : String}
    (ht : ∀ d ∈ t.data, 65 ≤ d.toNat ∧ d.toNat ≤ 90) (s : String) :
    goToUpper s = t ↔ unicodeCaseVariantOf s t = true := by
  unfold goToUpper unicodeCaseVariantOf
  rw [← map_toUpper_eq_iff s.data t.data ht, String.ext_iff]

/-- The inlined map case of `restoreArrayMapValue` agrees with the
standalone `restoreArrayInterfaceMap`. -/
theorem restore_map_eq_interfaceMap (kvs : List (String × Value)) :
    restoreArrayMapValue (Value.map kvs) = restoreArrayInterfaceMap kvs := rfl

/-! ### The claims -/

/-- C1: the spec claims every index-shaped mapping (key set exactly
`"0".."n-1"`) is restored to a sequence ordered by ascending integer
value of the key.  The code instead compares the lexically sorted keys
against `strconv.Itoa(i)`, so the index-shaped eleven-key mapping
`{"0",...,"10"}` — whose lexical order puts `"10"` before `"2"` — is
left as a Mapping, unrestored.  This theorem evaluates the code at that
failing input. -/
theorem eleven_key_index_map_not_restored :
    indexShapedSpec elevenKeyMap ∧
    restoreArrayMapValue (Value.map elevenKeyMap) = Value.map elevenKeyMap :=
  ⟨by decide, rfl⟩

/-- C2 counterexample: `Unmarshal` is not `normalize ∘ decode`.  With a
JSON decoder that returns `{"0": null}` (as `encoding/json` does on the
bytes `{"0":null}`), `Unmarshal` returns that mapping unchanged, while
the normalization of the decoded value is the sequence `[null]`. -/
theorem unmarshal_skips_normalization :
    Unmarshal demoCodecs [] DataFmt.JSON ≠
      Except.map restoreArrayMapValue (codecDecode demoCodecs [] DataFmt.JSON) :=
  fun h => Value.noConfusion (Except.ok.inj h)

/-- C2 (amended): `Unmarshal` returns the format decoder's output as-is,
with no normalization pass; normalization runs only on the encode path. -/
theorem unmarshal_is_raw_decode :
    ∀ (C : Codecs) (b : Bytes) (f : DataFmt), Unmarshal C b f = codecDecode C b f := by
  intro C b f
  cases f <;> rfl

/-- C3: normalization is idempotent: for every Value `v`,
`normalize (normalize v) = normalize v`. -/
theorem normalize_idempotent :
    ∀ v : Value, restoreArrayMapValue (restoreArrayMapValue v) = restoreArrayMapValue v :=
  restore_restore

/-- C4: normalization preserves the shape of every node that is not an
index-shaped mapping while recursing into children: the empty Mapping
stays a Mapping, a non-index-shaped Mapping keeps its keys with each
value normalized, a Sequence maps to a Sequence of the same length with
each element normalized, and scalars are returned unchanged. -/
theorem normalize_preserves_shapes :
    (restoreArrayMapValue (Value.map []) = Value.map []) ∧
    (∀ kvs : List (String × Value), ¬ indexShapedSpec kvs →
      restoreArrayMapValue (Value.map kvs) =
        Value.map (kvs.map (fun p => (p.1, restoreArrayMapValue p.2)))) ∧
    (∀ xs : List Value,
      restoreArrayMapValue (Value.arr xs) = Value.arr (xs.map restoreArrayMapValue)) ∧
    (restoreArrayMapValue Value.vnull = Value.vnull) ∧
    (∀ b, restoreArrayMapValue (Value.vbool b) = Value.vbool b) ∧
    (∀ n, restoreArrayMapValue (Value.vnum n) = Value.vnum n) ∧
    (∀ s, restoreArrayMapValue (Value.vstr s) = Value.vstr s) := by
  refine ⟨rfl, restore_nonindex_map, ?_, rfl, fun b => rfl, fun n => rfl, fun s => rfl⟩
  intro xs
  rw [restore_arr_eq, restoreArr_eq_map]

/-- C4 witness: the non-index-shaped mapping `{"01": null}` (non-canonical
key form) is kept as a Mapping with its value normalized. -/
theorem normalize_preserves_shapes_witness :
    restoreArrayMapValue (Value.map [("01", Value.vnull)]) =
      Value.map [("01", Value.vnull)] :=
  normalize_preserves_shapes.2.1 [("01", Value.vnull)] (by decide)

/-- C5: `Marshal` normalizes the value and then delegates to the
format-specific encoder: `marshal(v, f) = Codec.encode(normalize(v), f)`. -/
theorem marshal_normalizes_then_encodes :
    ∀ (C : Codecs) (d : Value) (f : DataFmt),
      Marshal C d f = codecEncode C (restoreArrayMapValue d) f := by
  intro C d f
  cases f <;> rfl

/-- C6 counterexample: the claim says `Format` fails on every string
that is not a case variant of `"YAML"`/`"TOML"`/`"JSON"`, but Go's
`strings.ToUpper` maps the long s ſ (U+017F) to `'S'`, so `"jſon"` —
which is a case variant of none of the three names — resolves to JSON
instead of failing. -/
theorem format_long_s_counterexample :
    caseVariantOf "jſon" "YAML" = false ∧
    caseVariantOf "jſon" "TOML" = false ∧
    caseVariantOf "jſon" "JSON" = false ∧
    Format "jſon" = Except.ok DataFmt.JSON :=
  ⟨rfl, rfl, rfl, rfl⟩

/-- C6 (amended): `Format` succeeds with the corresponding `DataFmt` on
every string whose per-character Unicode uppercasing spells one of
`"YAML"`/`"TOML"`/`"JSON"` — that is, every ASCII case variant of the
three names plus those writing a letter as the non-ASCII character that
uppercases to it (ſ → S, ı → I), such as `"jſon"` — and fails with the
unsupported-format error on every other string, including the empty
string. -/
theorem format_name_case_insensitive :
    (∀ s, unicodeCaseVariantOf s "YAML" = true → Format s = Except.ok DataFmt.YAML) ∧
    (∀ s, unicodeCaseVariantOf s "TOML" = true → Format s = Except.ok DataFmt.TOML) ∧
    (∀ s, unicodeCaseVariantOf s "JSON" = true → Format s = Except.ok DataFmt.JSON) ∧
    (∀ s, unicodeCaseVariantOf s "YAML" = false → unicodeCaseVariantOf s "TOML" = false →
      unicodeCaseVariantOf s "JSON" = false →
      Format s = Except.error "unsupported data format") := by
  have hY : ∀ d ∈ ("YAML" : String).data, 65 ≤ d.toNat ∧ d.toNat ≤ 90 := by decide
  have hT : ∀ d ∈ ("TOML" : String).data, 65 ≤ d.toNat ∧ d.toNat ≤ 90 := by decide
  have hJ : ∀ d ∈ ("JSON" : String).data, 65 ≤ d.toNat ∧ d.toNat ≤ 90 := by decide
  refine ⟨?_, ?_, ?_, ?_⟩
  · intro s hs
    unfold Format
    rw [(goToUpper_eq_iff hY s).mpr hs]
    rfl
  · intro s hs
    unfold Format
    rw [(goToUpper_eq_iff hT s).mpr hs]
    rfl
  · intro s hs
    unfold Format
    rw [(goToUpper_eq_iff hJ s).mpr hs]
    rfl
  · intro s h1 h2 h3
    unfold Format
    split
    · next heq => exact absurd ((goToUpper_eq_iff hY s).mp heq) (by simp [h1])
    · next heq => exact absurd ((goToUpper_eq_iff hT s).mp heq) (by simp [h2])
    · next heq => exact absurd ((goToUpper_eq_iff hJ s).mp heq) (by simp [h3])
    · rfl

/-- C6 witness: `Format` on concrete examples: `"yaml"`, `"YAML"`,
`"Yaml"` succeed with YAML, `"toml"`/`"json"` with their formats, the
Unicode variant `"jſon"` succeeds with JSON, and `"xml"` and the empty
string fail. -/
theorem format_name_case_insensitive_witness :
    Format "yaml" = Except.ok DataFmt.YAML ∧ Format "YAML" = Except.ok DataFmt.YAML ∧
    Format "Yaml" = Except.ok DataFmt.YAML ∧ Format "toml" = Except.ok DataFmt.TOML ∧
    Format "json" = Except.ok DataFmt.JSON ∧ Format "jſon" = Except.ok DataFmt.JSON ∧
    Format "xml" = Except.error "unsupported data format" ∧
    Format "" = Except.error "unsupported data format" :=
  ⟨format_name_case_insensitive.1 "yaml" rfl,
   format_name_case_insensitive.1 "YAML" rfl,
   format_name_case_insensitive.1 "Yaml" rfl,
   format_name_case_insensitive.2.1 "toml" rfl,
   format_name_case_insensitive.2.2.1 "json" rfl,
   format_name_case_insensitive.2.2.1 "jſon" rfl,
   format_name_case_insensitive.2.2.2 "xml" rfl rfl rfl,
   format_name_case_insensitive.2.2.2 "" rfl rfl rfl⟩

/-- C7: extension-based format resolution matches the path's final
extension exactly and case-sensitively against the table `.yaml`/`.yml`
to YAML, `.json` to JSON, `.toml`/`.tml` to TOML, and fails with the
unsupported-format error on any other path, including one with no
extension. -/
theorem fileformat_extension_table :
    (∀ p, filepathExt p = ".yaml" → FileFormat p = Except.ok DataFmt.YAML) ∧
    (∀ p, filepathExt p = ".yml" → FileFormat p = Except.ok DataFmt.YAML) ∧
    (∀ p, filepathExt p = ".json" → FileFormat p = Except.ok DataFmt.JSON) ∧
    (∀ p, filepathExt p = ".toml" → FileFormat p = Except.ok DataFmt.TOML) ∧
    (∀ p, filepathExt p = ".tml" → FileFormat p = Except.ok DataFmt.TOML) ∧
    (∀ p, filepathExt p ≠ ".yaml" → filepathExt p ≠ ".yml" →
      filepathExt p ≠ ".json" → filepathExt p ≠ ".toml" → filepathExt p ≠ ".tml" →
      FileFormat p = Except.error "unsupported data format") := by
  refine ⟨?_, ?_, ?_, ?_, ?_, ?_⟩
  · intro p h; unfold FileFormat; rw [h]; rfl
  · intro p h; unfold FileFormat; rw [h]; rfl
  · intro p h; unfold FileFormat; rw [h]; rfl
  · intro p h; unfold FileFormat; rw [h]; rfl
  · intro p h; unfold FileFormat; rw [h]; rfl
  · intro p h1 h2 h3 h4 h5
    unfold FileFormat
    split
    · next heq => exact absurd heq h1
    · next heq => exact absurd heq h2
    · next heq => exact absurd heq h3
    · next heq => exact absurd heq h4
    · next heq => exact absurd heq h5
    · rfl

/-- C7 witness: `"a/b/cfg.toml"` resolves to TOML and the extensionless
`"cfg"` fails with the unsupported-format error. -/
theorem fileformat_extension_table_witness :
    FileFormat "a/b/cfg.toml" = Except.ok DataFmt.TOML ∧
    FileFormat "cfg" = Except.error "unsupported data format" :=
  ⟨fileformat_extension_table.2.2.2.1 "a/b/cfg.toml" rfl,
   fileformat_extension_table.2.2.2.2.2 "cfg"
     (by decide) (by decide) (by decide) (by decide) (by decide)⟩

/-- C8: for the JSON format, `Marshal` produces exactly the output of
`json.MarshalIndent` on the normalized value with empty prefix and a
fixed two-space indent string. -/
theorem marshal_json_two_space_indent :
    ∀ (C : Codecs) (v : Value),
      Marshal C v DataFmt.JSON =
        C.jsonMarshalIndent (restoreArrayMapValue v) "" "  " := by
  intro C v
  rfl

/-- C9: `Load` fails with the file-not-found error when the path does
not exist, propagates any other read failure as its error, and otherwise
returns the result of `Unmarshal` on the file's full contents. -/
theorem load_read_then_unmarshal :
    ∀ (fs : String → FsRead) (C : Codecs) (fn : String) (f : DataFmt),
      (fs fn = FsRead.absent → Load fs C fn f = Except.error "file doesn't exist") ∧
      (∀ e, fs fn = FsRead.readErr e → Load fs C fn f = Except.error e) ∧
      (∀ b, fs fn = FsRead.content b → Load fs C fn f = Unmarshal C b f) := by
  intro fs C fn f
  refine ⟨?_, ?_, ?_⟩
  · intro h; unfold Load; rw [h]
  · intro e h; unfold Load; rw [h]
  · intro b h; unfold Load; rw [h]

/-- C9 witness: `Load` on an absent path, on a failing read, and on a
successful read of empty contents. -/
theorem load_read_then_unmarshal_witness :
    Load (fun _ => FsRead.absent) demoCodecs "/nonexistent/path" DataFmt.JSON =
      Except.error "file doesn't exist" ∧
    Load (fun _ => FsRead.readErr "disk failure") demoCodecs "a" DataFmt.JSON =
      Except.error "disk failure" ∧
    Load (fun _ => FsRead.content []) demoCodecs "a" DataFmt.JSON =
      Unmarshal demoCodecs [] DataFmt.JSON :=
  ⟨(load_read_then_unmarshal (fun _ => FsRead.absent) demoCodecs "/nonexistent/path"
      DataFmt.JSON).1 rfl,
   (load_read_then_unmarshal (fun _ => FsRead.readErr "disk failure") demoCodecs "a"
      DataFmt.JSON).2.1 "disk failure" rfl,
   (load_read_then_unmarshal (fun _ => FsRead.content []) demoCodecs "a"
      DataFmt.JSON).2.2 [] rfl⟩

/-- C10: `Write` serializes before touching the filesystem: whenever
`Marshal` fails, `Write` returns the marshal error and the filesystem is
unchanged (the target file is neither created nor truncated). -/
theorem write_marshal_error_leaves_fs :
    ∀ (fs : String → Option Bytes) (C : Codecs) (fn : String)
      (d : List (String × Value)) (f : DataFmt) (e : String),
      Marshal C (Value.map d) f = Except.error e →
      Write fs C fn d f = (Except.error e, fs) := by
  intro fs C fn d f e h
  unfold Write
  rw [h]

/-- C10 witness: marshalling with the `UNKNOWN` format fails, and
`Write` returns that error with the empty filesystem untouched. -/
theorem write_marshal_error_leaves_fs_witness :
    Write (fun _ => none) demoCodecs "out.json" [] DataFmt.UNKNOWN =
      (Except.error "unsupported data format", fun _ => none) :=
  write_marshal_error_leaves_fs (fun _ => none) demoCodecs "out.json" []
    DataFmt.UNKNOWN "unsupported data format" rfl

end Iodatafmt
